import Mathlib

/-!
Verification of the request construction, authentication-signing, and
response-decoding pipeline of the `codeforcespy` library.

The Python sources are embedded shallowly:

* Python strings are modelled as Lean `String` / `List Char` (Python's
  `str.split` on a one-character separator becomes `splitOnChar`).
* `Optional[T]` becomes `Option T`.
* The union type `Optional[Union[List[T], T]]` of the `result` field of a
  response envelope becomes the sum type `ResultVal`.
* Raising an exception becomes returning `Except.error`.
* The nondeterministic inputs of the signer (`int(time.time())` and
  `random.randint(111111, 999999)`) are passed as explicit arguments, and
  `hashlib.sha512(...).hexdigest()` (an external library primitive) is
  passed as an opaque function argument `sha512hex : String → String`.
-/

namespace Codeforcespy

/-! ## Response envelope and decoder (`processors.py`, `errors.py`) -/

/-- Model of the Python value stored in the `result` field of a decoded
response envelope, typed `Optional[Union[List[T], T]]` in
`abc/interactions.py`: either `None`, a bare single object, or a list. -/
inductive ResultVal (α : Type) where
  | absent : ResultVal α
  | single (a : α) : ResultVal α
  | many (l : List α) : ResultVal α
deriving DecidableEq

/-- Model of the decoded response envelope (`InteractionResponse` in
`abc/interactions.py`): `status : str`, `comment : Optional[str] = None`,
`result : Optional[Union[List[T], T]] = None`. -/
structure Envelope (α : Type) where
  status : String
  comment : Option String
  result : ResultVal α
deriving DecidableEq

/-- Embedding of `SyncMethod._ensure_list` / `AsyncMethod._ensure_list` /
`BaseClient._ensure_list`:
`if result is None: return []`, `if isinstance(result, list): return result`,
`return [result]`. -/
def ensureList {α : Type} : ResultVal α → List α
  | ResultVal.absent => []
  | ResultVal.many l => l
  | ResultVal.single a => [a]

/-- Embedding of the decoding branch of `SyncMethod._execute_request` and
`AsyncMethod._execute_request` (processors.py), applied to the already
decoded envelope (msgspec JSON decoding and the HTTP transport are external
collaborators):
`if base.status != "FAILED": return self._ensure_list(base.result)`
`else: raise Exception(base.comment)`.
An `Except.error c` models `raise Exception(c)` carrying the envelope's
comment. -/
def executeRequest {α : Type} (base : Envelope α) : Except (Option String) (List α) :=
  if base.status ≠ "FAILED" then Except.ok (ensureList base.result)
  else Except.error base.comment

/-- The message of the Python exception `Exception(comment)` raised by
`_execute_request`: `str(Exception(x))` is `x` for a string `x` and the
string `"None"` for `comment = None`. -/
def pyExcMessage : Option String → String
  | some s => s
  | none => "None"

/-- Embedding of `APIError.__init__` (errors.py):
`error_message = comment if comment else "Unknown API error"` (Python
truthiness: `None` and the empty string both fall back). This class is
defined and exported by the library but is never raised by
`_execute_request`. -/
def apiErrorMessage (comment : Option String) : String :=
  match comment with
  | some c => if c = "" then "Unknown API error" else c
  | none => "Unknown API error"

/-! ## Python string primitives on character lists -/

/-- Python `s.split(sep)` for a one-character separator, on the character
list of the string: `"a&&b".split("&") == ["a", "", "b"]`,
`"".split("&") == [""]`. -/
def splitOnChar (sep : Char) : List Char → List (List Char)
  | [] => [[]]
  | c :: cs =>
    if c = sep then [] :: splitOnChar sep cs
    else
      match splitOnChar sep cs with
      | [] => [[c]]
      | r :: rs => (c :: r) :: rs

/-- Python truthiness of an `Optional[str]`: `None` and `""` are falsy. -/
def pyTruthyOptStr : Option String → Bool
  | none => false
  | some s => !(s == "")

/-- Python f-string interpolation of a `bool`: `str(True) == "True"`,
`str(False) == "False"`. -/
def pyStrBool (b : Bool) : String :=
  if b then "True" else "False"

/-- Python f-string interpolation of an `Optional[bool]` value. -/
def pyStrOptBool : Option Bool → String
  | none => "None"
  | some b => pyStrBool b

/-- Python f-string interpolation of an `Optional[str]` value. -/
def pyStrOptStr : Option String → String
  | none => "None"
  | some s => s

/-- Python `s.removeprefix(pfx)`: drops `pfx` if `s` starts with it,
otherwise returns `s` unchanged. -/
def pyRemoveStart (s pfx : String) : String :=
  if String.isPrefixOf pfx s then s.drop pfx.length else s

/-! ## Authentication signer (`base.py` and `processors.py`) -/

/-- One entry of the dict comprehension in `_generate_authorisation`:
`{x.split("=")[0]: x.split("=")[1] for x in head.split("&") if x and "=" in x}`
— the list of (key, value) pairs in raw order, duplicates included, before
dict construction. `x.split("=")[0]` is the text before the first `=`;
`x.split("=")[1]` is the text between the first and the second `=`. -/
def pyParseParams (head : String) : List (List Char × List Char) :=
  ((splitOnChar '&' head.data).filter (fun x => !x.isEmpty && x.contains '=')).map
    (fun x => ((splitOnChar '=' x).headD [], (splitOnChar '=' x).getD 1 []))

/-- Python dict insertion: an existing key keeps its position and gets the
new value, a new key is appended. -/
def pyDictInsert : List (List Char × List Char) → List Char × List Char →
    List (List Char × List Char)
  | [], kv => [kv]
  | p :: ps, kv => if p.1 = kv.1 then (p.1, kv.2) :: ps else p :: pyDictInsert ps kv

/-- The Python dict built (in order) from the parsed entries: later
occurrences of a key overwrite earlier ones. -/
def pyDict (l : List (List Char × List Char)) : List (List Char × List Char) :=
  List.foldl pyDictInsert [] l

/-- Strict lexicographic comparison of Python strings (code-point order,
a proper prefix is smaller). -/
def lexLt : List Char → List Char → Bool
  | [], [] => false
  | [], _ :: _ => true
  | _ :: _, [] => false
  | a :: as, b :: bs => decide (a < b) || (a == b && lexLt as bs)

/-- Python tuple comparison `(k1, v1) < (k2, v2)` on pairs of strings. -/
def pairLt (a b : List Char × List Char) : Bool :=
  lexLt a.1 b.1 || (a.1 == b.1 && lexLt a.2 b.2)

/-- Non-strict counterpart of `pairLt`. -/
def pairLe (a b : List Char × List Char) : Bool :=
  pairLt a b || decide (a = b)

/-- Insert into a sorted list (used to model Python `sorted`; since `pairLe`
is a linear order on the pairs, the sorted output is unique and stability is
irrelevant). -/
def insertSorted {α : Type} (le : α → α → Bool) (a : α) : List α → List α
  | [] => [a]
  | b :: bs => if le a b then a :: b :: bs else b :: insertSorted le a bs

/-- Insertion sort, modelling Python `sorted`. -/
def insertionSort {α : Type} (le : α → α → Bool) : List α → List α
  | [] => []
  | a :: l => insertSorted le a (insertionSort le l)

/-- `sorted(params.items())` in `_generate_authorisation`. -/
def pySortPairs (l : List (List Char × List Char)) : List (List Char × List Char) :=
  insertionSort pairLe l

/-- UTF-8 encoding of one character, as byte values. -/
def utf8Bytes (c : Char) : List Nat :=
  let n := c.toNat
  if n < 0x80 then [n]
  else if n < 0x800 then [0xC0 + n / 0x40, 0x80 + n % 0x40]
  else if n < 0x10000 then
    [0xE0 + n / 0x1000, 0x80 + (n / 0x40) % 0x40, 0x80 + n % 0x40]
  else
    [0xF0 + n / 0x40000, 0x80 + (n / 0x1000) % 0x40, 0x80 + (n / 0x40) % 0x40,
      0x80 + n % 0x40]

/-- Uppercase hexadecimal digit, as used by `urllib.parse.quote`. -/
def hexDigit (n : Nat) : Char :=
  if n < 10 then Char.ofNat (48 + n) else Char.ofNat (55 + n)

/-- `%XX` percent-encoding of one byte. -/
def percentEncodeByte (b : Nat) : List Char :=
  ['%', hexDigit (b / 16), hexDigit (b % 16)]

/-- `urllib.parse.quote_plus` with `safe=";"`, per character: ASCII
alphanumerics and `_ . - ~` (the always-safe set) and the safe `;` are kept,
a space becomes `+`, everything else is percent-encoded per UTF-8 byte. -/
def quotePlusChar (c : Char) : List Char :=
  if c.isAlphanum || c = '_' || c = '.' || c = '-' || c = '~' || c = ';' then [c]
  else if c = ' ' then ['+']
  else (utf8Bytes c).flatMap percentEncodeByte

/-- `urllib.parse.quote_plus(s, safe=";")` on a character list. -/
def quotePlus (l : List Char) : List Char :=
  l.flatMap quotePlusChar

/-- `urllib.parse.urlencode(sorted_params, safe=";")`: quote each key and
value, join each pair with `=` and the pairs with `&`. -/
def pyUrlencode (ps : List (List Char × List Char)) : String :=
  String.intercalate "&" (ps.map (fun kv => String.mk (quotePlus kv.1 ++ '=' :: quotePlus kv.2)))

/-- The signing context owned by a client (`_auth_enabled`, `_auth_key`,
`_secret`, `_time` in `BaseClient` / `SyncMethod` / `AsyncMethod`). -/
structure SigningState where
  authEnabled : Bool
  authKey : Option String
  secret : Option String
  time : Option Int
deriving DecidableEq

/-- The canonical query string of `_generate_authorisation`: strip the
prefix `https://codeforces.com/api/{method}?`, parse into a dict, sort the
items, and url-encode with `safe=";"`. -/
def canonicalQuery (methodName endPointUrl : String) : String :=
  pyUrlencode (pySortPairs (pyDict (pyParseParams
    (pyRemoveStart endPointUrl ("https://codeforces.com/api/" ++ methodName ++ "?")))))

/-- The shared tail of `_generate_authorisation` (identical in `base.py`
and in both classes of `processors.py`): build the string to hash, hash it,
and assemble the final URL. -/
def signedUrl (authKey secret : Option String) (sha512hex : String → String)
    (currentTime randomSixDigit : Int) (endPointUrl methodName : String) : String :=
  let encodedParams := canonicalQuery methodName endPointUrl
  let toHash := toString randomSixDigit ++ "/" ++ methodName ++ "?apiKey=" ++
    pyStrOptStr authKey ++ "&" ++ encodedParams ++ "&time=" ++ toString currentTime ++
    "#" ++ pyStrOptStr secret
  let hashedString := sha512hex toHash
  "https://codeforces.com/api/" ++ methodName ++ "?" ++ encodedParams ++ "&apiKey=" ++
    pyStrOptStr authKey ++ "&time=" ++ toString currentTime ++ "&apiSig=" ++
    toString randomSixDigit ++ hashedString

/-- Embedding of `BaseClient._generate_authorisation` (base.py):
`current_time = self._time if self._time is not None else int(time.time())`
— the stored time is read but never written; the clock value is the
argument `now`. -/
def baseGenerateAuthorisation (st : SigningState) (sha512hex : String → String)
    (now randomSixDigit : Int) (endPointUrl methodName : String) : String :=
  if st.authEnabled then
    let currentTime := st.time.getD now
    signedUrl st.authKey st.secret sha512hex currentTime randomSixDigit endPointUrl methodName
  else endPointUrl

/-- Embedding of `SyncMethod._generate_authorisation` and
`AsyncMethod._generate_authorisation` (processors.py):
`if self._time is None: self._time = int(time.time())` — the stored time is
WRITTEN on the first authenticated call; the updated signing context is
returned alongside the URL. -/
def syncGenerateAuthorisation (st : SigningState) (sha512hex : String → String)
    (now randomSixDigit : Int) (endPointUrl methodName : String) : String × SigningState :=
  if st.authEnabled then
    let st1 := if st.time = none then { st with time := some now } else st
    let currentTime := st1.time.getD now
    (signedUrl st1.authKey st1.secret sha512hex currentTime randomSixDigit endPointUrl methodName,
      st1)
  else (endPointUrl, st)

/-- Modelled from the spec for claim C4 (the refinement target, following
the spec's words, not the source): the value of an entry is EVERYTHING
after the first `=`, including any further `=` characters. -/
def specParseParams (head : String) : List (List Char × List Char) :=
  ((splitOnChar '&' head.data).filter (fun x => !x.isEmpty && x.contains '=')).map
    (fun x => (x.takeWhile (· != '='), (x.dropWhile (· != '=')).tail))

/-- The value of the last occurrence of key `k` in an association list
(Python dict semantics: later duplicates win). -/
def lastAssoc (k : List Char) : List (List Char × List Char) → Option (List Char)
  | [] => none
  | p :: ps =>
    match lastAssoc k ps with
    | some v => some v
    | none => if p.1 = k then some p.2 else none

/-- First-occurrence lookup in an association list. -/
def listAssoc : List (List Char × List Char) → List Char → Option (List Char)
  | [], _ => none
  | p :: ps, k => if p.1 = k then some p.2 else listAssoc ps k

/-- The keys of an association list, in order. -/
def keysOf (d : List (List Char × List Char)) : List (List Char) :=
  d.map Prod.fst

/-! ## Endpoint builders (`abc/endpoints.py`) -/

/-- `CodeForcesAPI.base_url`. -/
def baseUrl : String := "https://codeforces.com/api"

/-- `CodeForcesAPI.blog_entry_comments`. -/
def blog_entry_comments (blogEntryId : Int) : String :=
  baseUrl ++ "/blogEntry.comments?blogEntryId=" ++ toString blogEntryId

/-- `CodeForcesAPI.blog_entry_view`. -/
def blog_entry_view (blogEntryId : Int) : String :=
  baseUrl ++ "/blogEntry.view?blogEntryId=" ++ toString blogEntryId

/-- `CodeForcesAPI.contest_hacks`; the Python default for `as_manager` is
`False` (i.e. `some false` here), so a call that leaves it unset still
interpolates it. -/
def contest_hacks (contestId : Int) (asManager : Option Bool) : String :=
  baseUrl ++ "/contest.hacks?contestId=" ++ toString contestId ++ "&asManager=" ++
    pyStrOptBool asManager

/-- `CodeForcesAPI.contest_list`; Python default `gym=False`. -/
def contest_list (gym : Option Bool) : String :=
  baseUrl ++ "/contest.list?gym=" ++ pyStrOptBool gym

/-- `CodeForcesAPI.contest_rating_changes`. -/
def contest_rating_changes (contestId : Int) : String :=
  baseUrl ++ "/contest.ratingChanges?contestId=" ++ toString contestId

/-- `CodeForcesAPI.contest_standings`; Python defaults `as_manager=False`,
`from_index=1`, `count=5`, `show_unofficial=True`. -/
def contest_standings (contestId : Int) (asManager : Option Bool)
    (fromIndex count : Int) (showUnofficial : Option Bool) : String :=
  baseUrl ++ "/contest.standings?contestId=" ++ toString contestId ++ "&asManager=" ++
    pyStrOptBool asManager ++ "&from=" ++ toString fromIndex ++ "&count=" ++
    toString count ++ "&showUnofficial=" ++ pyStrOptBool showUnofficial

/-- `CodeForcesAPI.contest_status`; Python defaults `as_manager=False`,
`handle=None`, `from_index=1`, `count=10`; the `handle` branch tests Python
truthiness (`if handle:`). -/
def contest_status (contestId : Int) (asManager : Option Bool) (handle : Option String)
    (fromIndex count : Int) : String :=
  if pyTruthyOptStr handle then
    baseUrl ++ "/contest.status?contestId=" ++ toString contestId ++ "&asManager=" ++
      pyStrOptBool asManager ++ "&handle=" ++ pyStrOptStr handle ++ "&from=" ++
      toString fromIndex ++ "&count=" ++ toString count
  else
    baseUrl ++ "/contest.status?contestId=" ++ toString contestId ++ "&asManager=" ++
      pyStrOptBool asManager ++ "&from=" ++ toString fromIndex ++ "&count=" ++
      toString count

/-- `CodeForcesAPI.problemset_problems`: `if tags: ... elif problemset_name:
... else: ...` — both branches test Python truthiness. -/
def problemset_problems (tags problemsetName : Option String) : String :=
  if pyTruthyOptStr tags then
    baseUrl ++ "/problemset.problems?tags=" ++ pyStrOptStr tags
  else if pyTruthyOptStr problemsetName then
    baseUrl ++ "/problemset.problems?problemsetName=" ++ pyStrOptStr problemsetName
  else
    baseUrl ++ "/problemset.problems"

/-- `CodeForcesAPI.problemset_recent_status`; `problemset_name` defaults to
`None` and is emitted only when truthy. -/
def problemset_recent_status (count : Int) (problemsetName : Option String) : String :=
  if pyTruthyOptStr problemsetName then
    baseUrl ++ "/problemset.recentStatus?count=" ++ toString count ++ "&problemsetName=" ++
      pyStrOptStr problemsetName
  else
    baseUrl ++ "/problemset.recentStatus?count=" ++ toString count

/-- `CodeForcesAPI.recent_actions`. -/
def recent_actions (maxCount : Int) : String :=
  baseUrl ++ "/recentActions?maxCount=" ++ toString maxCount

/-- `CodeForcesAPI.user_blog_entries`. -/
def user_blog_entries (handle : String) : String :=
  baseUrl ++ "/user.blogEntries?handle=" ++ handle

/-- `CodeForcesAPI.user_friends`; Python default `only_online=False`. -/
def user_friends (onlyOnline : Option Bool) : String :=
  baseUrl ++ "/user.friends?onlyOnline=" ++ pyStrOptBool onlyOnline

/-- `CodeForcesAPI.user_info`; Python default `check_historic_handles=True`. -/
def user_info (handles : String) (checkHistoricHandles : Option Bool) : String :=
  baseUrl ++ "/user.info?handles=" ++ handles ++ "&checkHistoricHandles=" ++
    pyStrOptBool checkHistoricHandles

/-- `CodeForcesAPI.user_rated_list`; Python defaults `active_only=True`,
`include_retired=False`, `contest_id=None`; `contest_id` is emitted only
when it `is not None`. -/
def user_rated_list (activeOnly includeRetired : Option Bool)
    (contestId : Option Int) : String :=
  match contestId with
  | some cid =>
    baseUrl ++ "/user.ratedList?activeOnly=" ++ pyStrOptBool activeOnly ++
      "&includeRetired=" ++ pyStrOptBool includeRetired ++ "&contestId=" ++ toString cid
  | none =>
    baseUrl ++ "/user.ratedList?activeOnly=" ++ pyStrOptBool activeOnly ++
      "&includeRetired=" ++ pyStrOptBool includeRetired

/-- `CodeForcesAPI.user_rating`. -/
def user_rating (handle : String) : String :=
  baseUrl ++ "/user.rating?handle=" ++ handle

/-- `CodeForcesAPI.user_status`; Python defaults `from_index=1`, `count=10`. -/
def user_status (handle : String) (fromIndex count : Int) : String :=
  baseUrl ++ "/user.status?handle=" ++ handle ++ "&from=" ++ toString fromIndex ++
    "&count=" ++ toString count

/-! ## Observers on built URLs (reading back the query string) -/

/-- The query-string characters of a URL: everything after the first `?`. -/
def urlQuery (url : String) : List Char :=
  (url.data.dropWhile (· != '?')).tail

/-- The `&`-separated entries of the query string of a URL. -/
def urlEntries (url : String) : List (List Char) :=
  splitOnChar '&' (urlQuery url)

/-- The parameter keys of the query string of a URL (the text of each entry
before its first `=`). -/
def urlQueryKeys (url : String) : List (List Char) :=
  (urlEntries url).map (fun e => e.takeWhile (· != '='))

/-- The rendered value of the first query-string entry whose key is `k`. -/
def urlParamValue (url : String) (k : List Char) : Option (List Char) :=
  (urlEntries url).findSome? fun e =>
    if e.takeWhile (· != '=') = k then some ((e.dropWhile (· != '=')).tail) else none

/-- The concatenation `k1=v1&k2=v2&...` of query entries (observer-side
normal form used to describe the query strings the builders emit). -/
def joinEntries : List (List Char × List Char) → List Char
  | [] => []
  | [(k, v)] => k ++ '=' :: v
  | (k, v) :: rest => k ++ '=' :: (v ++ '&' :: joinEntries rest)

/-- A parameter string is clean when it cannot change how the built query
string splits into entries: it contains no `&` and no `=`. Every value the
library itself interpolates (integers, the `True`/`False`/`None` renderings)
is clean. -/
def cleanChars (l : List Char) : Prop :=
  ∀ c ∈ l, c ≠ '&' ∧ c ≠ '='

/-- Cleanliness of an optional string parameter. -/
def cleanOptStr : Option String → Prop
  | none => True
  | some s => cleanChars s.data

/-! ## Claims about the response decoder (C1, C2, C5) -/

/-- Claim C1, counterexample: an envelope whose status is `"ERROR"` — a
value different from both `"OK"` and `"FAILED"` — makes `_execute_request`
return the normalized result list instead of failing, contradicting the
claim that every non-`"OK"` status fails with an API error. -/
theorem execute_request_error_status_returns_ok :
    ("ERROR" : String) ≠ "OK" ∧
      executeRequest (Envelope.mk "ERROR" (some "oops") (ResultVal.single (7 : Nat))) =
        Except.ok [7] :=
  ⟨by decide, rfl⟩

/-- Claim C1, amended: the request-executing operation branches on equality
with `"FAILED"`: it fails (carrying the envelope's comment) exactly when the
status equals `"FAILED"`, and for every other status — `"OK"` included — it
returns the normalized result list. -/
theorem execute_request_branches_on_failed {α : Type} (env : Envelope α) :
    (env.status = "FAILED" → executeRequest env = Except.error env.comment) ∧
    (env.status ≠ "FAILED" → executeRequest env = Except.ok (ensureList env.result)) := by
  constructor <;> intro h <;> simp [executeRequest, h]

/-- Witness for `execute_request_branches_on_failed` at concrete envelopes. -/
theorem execute_request_branches_on_failed_witness :
    executeRequest (Envelope.mk "FAILED" (some "x") (ResultVal.single (1 : Nat))) =
        Except.error (some "x") ∧
      executeRequest (Envelope.mk "OK" none (ResultVal.single (1 : Nat))) =
        Except.ok [1] :=
  ⟨(execute_request_branches_on_failed _).1 rfl,
   (execute_request_branches_on_failed _).2 (by decide)⟩

/-- Claim C2: evaluation of the code at the failing input. For an envelope
with status `"FAILED"` and no comment, `_execute_request` raises
`Exception(None)`, whose message is the string `"None"` — not the fallback
`"Unknown API error"` that the claim specifies and that the (defined,
exported, but never raised) `APIError` class would produce. -/
theorem failed_without_comment_message_is_not_fallback :
    executeRequest (Envelope.mk "FAILED" none (ResultVal.absent : ResultVal Nat)) =
        Except.error none ∧
      pyExcMessage none = "None" ∧
      apiErrorMessage none = "Unknown API error" ∧
      ("None" : String) ≠ "Unknown API error" :=
  ⟨rfl, rfl, rfl, by decide⟩

/-- Claim C5: ensure-list normalization: absent result becomes the empty
list, a bare single object becomes a one-element list, an already-list value
is returned unchanged; consequently executing a request whose envelope holds
a bare object equals executing one holding the one-element array. -/
theorem ensure_list_normalisation {α : Type} (x : α) (l : List α)
    (st : String) (c : Option String) :
    ensureList (ResultVal.absent : ResultVal α) = [] ∧
      ensureList (ResultVal.single x) = [x] ∧
      ensureList (ResultVal.many l) = l ∧
      executeRequest (Envelope.mk st c (ResultVal.single x)) =
        executeRequest (Envelope.mk st c (ResultVal.many [x])) :=
  ⟨rfl, rfl, rfl, rfl⟩

/-! ## Toolkit lemmas about `splitOnChar`, `takeWhile`, `dropWhile` -/

theorem splitOnChar_ne_nil (sep : Char) (l : List Char) : splitOnChar sep l ≠ [] := by
  cases l with
  | nil => simp [splitOnChar]
  | cons c cs =>
    simp only [splitOnChar]
    split
    · simp
    · split <;> simp

theorem splitOnChar_cons (sep c : Char) (cs : List Char) :
    splitOnChar sep (c :: cs) =
      if c = sep then [] :: splitOnChar sep cs
      else (c :: (splitOnChar sep cs).headD []) :: (splitOnChar sep cs).tail := by
  simp only [splitOnChar]
  by_cases h : c = sep
  · simp [h]
  · simp only [if_neg h]
    rcases hs : splitOnChar sep cs with _ | ⟨r, rs⟩
    · exact absurd hs (splitOnChar_ne_nil sep cs)
    · simp

theorem splitOnChar_not_mem {sep : Char} {l : List Char} (h : sep ∉ l) :
    splitOnChar sep l = [l] := by
  induction l with
  | nil => rfl
  | cons c cs ih =>
    have hc : c ≠ sep := fun e => h (List.mem_cons.mpr (Or.inl e.symm))
    have hcs : sep ∉ cs := fun hm => h (List.mem_cons_of_mem c hm)
    rw [splitOnChar_cons, if_neg hc, ih hcs]
    rfl

theorem splitOnChar_append_sep {sep : Char} {a : List Char} (b : List Char) (h : sep ∉ a) :
    splitOnChar sep (a ++ sep :: b) = a :: splitOnChar sep b := by
  induction a with
  | nil =>
    rw [List.nil_append, splitOnChar_cons, if_pos rfl]
  | cons c cs ih =>
    have hc : c ≠ sep := fun e => h (List.mem_cons.mpr (Or.inl e.symm))
    have hcs : sep ∉ cs := fun hm => h (List.mem_cons_of_mem c hm)
    rw [List.cons_append, splitOnChar_cons, if_neg hc, ih hcs]
    rfl

theorem takeWhile_all {p : Char → Bool} {a : List Char} (h : ∀ c ∈ a, p c = true) :
    a.takeWhile p = a := by
  induction a with
  | nil => rfl
  | cons c cs ih =>
    rw [List.takeWhile_cons, if_pos (h c (List.mem_cons_self c cs)),
      ih (fun x hx => h x (List.mem_cons_of_mem c hx))]

theorem dropWhile_all {p : Char → Bool} {a : List Char} (h : ∀ c ∈ a, p c = true) :
    a.dropWhile p = [] := by
  induction a with
  | nil => rfl
  | cons c cs ih =>
    rw [List.dropWhile_cons, if_pos (h c (List.mem_cons_self c cs)),
      ih (fun x hx => h x (List.mem_cons_of_mem c hx))]

theorem takeWhile_append_bad {p : Char → Bool} {x : Char} (hx : p x = false)
    (a b : List Char) : (a ++ x :: b).takeWhile p = a.takeWhile p := by
  induction a with
  | nil => simp [List.takeWhile_cons, hx]
  | cons c cs ih =>
    by_cases hc : p c = true
    · simp [List.takeWhile_cons, hc, ih]
    · simp only [Bool.not_eq_true] at hc
      simp [List.takeWhile_cons, hc]

theorem dropWhile_append_bad {p : Char → Bool} {x : Char} (hx : p x = false)
    (a b : List Char) : (a ++ x :: b).dropWhile p = a.dropWhile p ++ x :: b := by
  induction a with
  | nil => simp [List.dropWhile_cons, hx]
  | cons c cs ih =>
    by_cases hc : p c = true
    · simp [List.dropWhile_cons, hc, ih]
    · simp only [Bool.not_eq_true] at hc
      simp [List.dropWhile_cons, hc]

theorem splitOnChar_headD (sep : Char) (x : List Char) :
    (splitOnChar sep x).headD [] = x.takeWhile (· != sep) := by
  induction x with
  | nil => rfl
  | cons c cs ih =>
    rw [splitOnChar_cons]
    by_cases h : c = sep
    · subst h
      simp [List.takeWhile_cons]
    · rw [if_neg h, List.headD_cons, List.takeWhile_cons, ih]
      simp [bne_iff_ne.mpr h]

theorem splitOnChar_getD_one (sep : Char) (x : List Char) :
    (splitOnChar sep x).getD 1 [] =
      ((x.dropWhile (· != sep)).tail).takeWhile (· != sep) := by
  induction x with
  | nil => rfl
  | cons c cs ih =>
    rw [splitOnChar_cons]
    by_cases h : c = sep
    · subst h
      rcases hs : splitOnChar c cs with _ | ⟨r, rs⟩
      · exact absurd hs (splitOnChar_ne_nil c cs)
      · have h2 := splitOnChar_headD c cs
        rw [hs] at h2
        simp only [List.headD_cons] at h2
        simp [List.dropWhile_cons, hs, h2]
    · rcases hs : splitOnChar sep cs with _ | ⟨r, rs⟩
      · exact absurd hs (splitOnChar_ne_nil sep cs)
      · rw [hs] at ih
        simp only [List.getD_cons_succ] at ih
        rw [if_neg h]
        simp only [List.tail_cons, List.getD_cons_succ]
        rw [ih, List.dropWhile_cons, if_pos (bne_iff_ne.mpr h)]

/-! ## Claim C4: splitting of the raw query string by the signer -/

/-- Claim C4, counterexample: for the raw query entry `a=b=c` the signer
keeps only the text between the first and the second `=` as the value
(`x.split("=")[1]` is `"b"`), not everything after the first `=` as the
claim states (`"b=c"`). -/
theorem parse_params_drops_after_second_equals :
    pyParseParams "a=b=c" = [(['a'], ['b'])] ∧
      specParseParams "a=b=c" = [(['a'], ['b', '=', 'c'])] ∧
      pyParseParams "a=b=c" ≠ specParseParams "a=b=c" :=
  ⟨by decide, by decide, by decide⟩

/-- Claim C4, amended: the signer splits the raw query string on `&`, drops
entries that are empty or contain no `=`, and maps each remaining entry to
the pair (text before the first `=`, text strictly between the first and the
second `=`) — any text after a second `=` is silently discarded. -/
theorem parse_params_characterisation (head : String) :
    pyParseParams head =
      ((splitOnChar '&' head.data).filter (fun x => !x.isEmpty && x.contains '=')).map
        (fun x => (x.takeWhile (· != '='),
          ((x.dropWhile (· != '=')).tail).takeWhile (· != '='))) := by
  unfold pyParseParams
  congr 1
  funext x
  rw [splitOnChar_headD, splitOnChar_getD_one]

/-! ## Claim C3: shape of the signed URL and of the hashed string -/

/-- Claim C3: with signing enabled, resolved time `t`, nonce `r`, key and
secret, the signer hashes exactly the string
`{r}/{method}?apiKey={key}&{Q}&time={t}#{secret}` — where `Q` is the
canonical query string derived from the input URL — and returns exactly
`https://codeforces.com/api/{method}?{Q}&apiKey={key}&time={t}&apiSig={r}{d}`
with `d` the digest of that string; with signing disabled it returns the
input URL unchanged. This holds for the `BaseClient` signer and for the
`SyncMethod`/`AsyncMethod` signer alike. -/
theorem signer_url_format (sha512hex : String → String) (key secret methodName url : String)
    (t r now : Int) :
    (baseGenerateAuthorisation ⟨true, some key, some secret, some t⟩ sha512hex now r url
        methodName =
      "https://codeforces.com/api/" ++ methodName ++ "?" ++ canonicalQuery methodName url ++
        "&apiKey=" ++ key ++ "&time=" ++ toString t ++ "&apiSig=" ++ toString r ++
        sha512hex (toString r ++ "/" ++ methodName ++ "?apiKey=" ++ key ++ "&" ++
          canonicalQuery methodName url ++ "&time=" ++ toString t ++ "#" ++ secret)) ∧
    ((syncGenerateAuthorisation ⟨true, some key, some secret, some t⟩ sha512hex now r url
        methodName).1 =
      baseGenerateAuthorisation ⟨true, some key, some secret, some t⟩ sha512hex now r url
        methodName) ∧
    (baseGenerateAuthorisation ⟨false, some key, some secret, some t⟩ sha512hex now r url
      methodName = url) ∧
    ((syncGenerateAuthorisation ⟨false, some key, some secret, some t⟩ sha512hex now r url
      methodName).1 = url) :=
  ⟨rfl, rfl, rfl, rfl⟩

/-! ## Claim C6: time resolution and mutation of the signing context -/

/-- Claim C6, counterexample: constructed without a fixed time
(`_time = None`) and with auth enabled, the `SyncMethod`/`AsyncMethod`
signer MUTATES the stored signing context on its first call — the clock
value read (here `100`) is written into `_time`, so the context does not
stay unchanged — and a later call's output is independent of the
then-current clock (`200` vs `999`), so the signature timestamp is not the
current Unix time read at that call. -/
theorem sync_signer_caches_clock_counterexample :
    (syncGenerateAuthorisation ⟨true, some "k", some "s", none⟩ (fun _ => "h") 100 111111
        "https://codeforces.com/api/user.rating?handle=x" "user.rating").2 ≠
      ⟨true, some "k", some "s", none⟩ ∧
    (syncGenerateAuthorisation ⟨true, some "k", some "s", some 100⟩ (fun _ => "h") 200 111111
        "https://codeforces.com/api/user.rating?handle=x" "user.rating").1 =
      (syncGenerateAuthorisation ⟨true, some "k", some "s", some 100⟩ (fun _ => "h") 999 111111
        "https://codeforces.com/api/user.rating?handle=x" "user.rating").1 :=
  ⟨by decide, rfl⟩

/-- Claim C6, amended: the `BaseClient` signer reads the injected clock on
every call and returns only a URL (the stored context is read, never
written); the `SyncMethod`/`AsyncMethod` signer instead caches the clock:
its first authenticated call with unset time uses `now` and stores it into
the context, and every call with a stored time reuses that stored value,
ignoring the current clock. -/
theorem signer_time_resolution (k s : Option String) (sha512hex : String → String)
    (now now2 r : Int) (t : Int) (url m : String) :
    (baseGenerateAuthorisation ⟨true, k, s, none⟩ sha512hex now r url m =
        signedUrl k s sha512hex now r url m) ∧
      (syncGenerateAuthorisation ⟨true, k, s, none⟩ sha512hex now r url m =
        (signedUrl k s sha512hex now r url m, ⟨true, k, s, some now⟩)) ∧
      (syncGenerateAuthorisation ⟨true, k, s, some t⟩ sha512hex now2 r url m =
        (signedUrl k s sha512hex t r url m, ⟨true, k, s, some t⟩)) :=
  ⟨rfl, rfl, rfl⟩

/-! ## Lemmas about Python dict construction and `sorted` (for claim C10) -/

theorem listAssoc_insert (d : List (List Char × List Char)) (kv : List Char × List Char)
    (k : List Char) :
    listAssoc (pyDictInsert d kv) k = if kv.1 = k then some kv.2 else listAssoc d k := by
  induction d with
  | nil => simp [pyDictInsert, listAssoc]
  | cons p ps ih =>
    simp only [pyDictInsert]
    by_cases hp : p.1 = kv.1
    · rw [if_pos hp]
      by_cases h : kv.1 = k
      · simp [listAssoc, hp, h]
      · simp [listAssoc, hp, h]
    · rw [if_neg hp]
      by_cases hpk : p.1 = k
      · have : kv.1 ≠ k := fun e => hp (hpk.trans e.symm)
        simp [listAssoc, hpk, this]
      · simp [listAssoc, hpk, ih]

theorem keysOf_insert (d : List (List Char × List Char)) (kv : List Char × List Char) :
    keysOf (pyDictInsert d kv) =
      if kv.1 ∈ keysOf d then keysOf d else keysOf d ++ [kv.1] := by
  induction d with
  | nil => simp [pyDictInsert, keysOf]
  | cons p ps ih =>
    simp only [pyDictInsert]
    have hcons2 : keysOf (p :: ps) = p.1 :: keysOf ps := rfl
    by_cases hp : p.1 = kv.1
    · rw [if_pos hp]
      have hmem : kv.1 ∈ keysOf (p :: ps) := by
        rw [hcons2]
        exact List.mem_cons.mpr (Or.inl hp.symm)
      rw [if_pos hmem]
      rfl
    · rw [if_neg hp]
      have hne : kv.1 ≠ p.1 := fun e => hp e.symm
      have hcons : keysOf (p :: pyDictInsert ps kv) = p.1 :: keysOf (pyDictInsert ps kv) := rfl
      by_cases hm : kv.1 ∈ keysOf ps
      · have hmem : kv.1 ∈ keysOf (p :: ps) := by
          rw [hcons2]
          exact List.mem_cons.mpr (Or.inr hm)
        rw [hcons, ih, if_pos hm, if_pos hmem, hcons2]
      · have hmem : kv.1 ∉ keysOf (p :: ps) := by
          rw [hcons2]
          intro h
          rcases List.mem_cons.mp h with h | h
          · exact hne h
          · exact hm h
        rw [hcons, ih, if_neg hm, if_neg hmem, hcons2]
        rfl

theorem keys_nodup_insert {d : List (List Char × List Char)} (kv : List Char × List Char)
    (h : (keysOf d).Nodup) : (keysOf (pyDictInsert d kv)).Nodup := by
  rw [keysOf_insert]
  by_cases hm : kv.1 ∈ keysOf d
  · simp [hm, h]
  · simp only [hm, if_neg, not_false_iff]
    simp [List.nodup_append, h, hm]

theorem listAssoc_foldl (l : List (List Char × List Char)) :
    ∀ (d : List (List Char × List Char)) (k : List Char),
      listAssoc (List.foldl pyDictInsert d l) k =
        (lastAssoc k l).or (listAssoc d k) := by
  induction l with
  | nil => intro d k; rfl
  | cons x xs ih =>
    intro d k
    rw [List.foldl_cons, ih, listAssoc_insert]
    cases hxs : lastAssoc k xs with
    | some v => simp [lastAssoc, hxs, Option.or]
    | none =>
      by_cases hx : x.1 = k
      · simp [lastAssoc, hxs, hx, Option.or]
      · simp [lastAssoc, hxs, hx, Option.or]

theorem keys_nodup_foldl (l : List (List Char × List Char)) :
    ∀ d, (keysOf d).Nodup → (keysOf (List.foldl pyDictInsert d l)).Nodup := by
  induction l with
  | nil => intro d h; exact h
  | cons x xs ih =>
    intro d h
    rw [List.foldl_cons]
    exact ih _ (keys_nodup_insert x h)

theorem pyDict_keys_nodup (l : List (List Char × List Char)) :
    (keysOf (pyDict l)).Nodup :=
  keys_nodup_foldl l [] (by simp [keysOf])

theorem pyDict_listAssoc (l : List (List Char × List Char)) (k : List Char) :
    listAssoc (pyDict l) k = lastAssoc k l := by
  rw [pyDict, listAssoc_foldl]
  cases lastAssoc k l <;> simp [Option.or, listAssoc]

theorem mem_iff_listAssoc {d : List (List Char × List Char)}
    (hd : (keysOf d).Nodup) (k v : List Char) :
    (k, v) ∈ d ↔ listAssoc d k = some v := by
  induction d with
  | nil => simp [listAssoc]
  | cons p ps ih =>
    simp only [keysOf, List.map_cons, List.nodup_cons] at hd
    by_cases hp : p.1 = k
    · subst hp
      rw [show listAssoc (p :: ps) p.1 = some p.2 from by simp [listAssoc]]
      simp only [List.mem_cons, Option.some.injEq]
      constructor
      · rintro (h | h)
        · exact (congrArg Prod.snd h).symm
        · exact absurd (List.mem_map_of_mem Prod.fst h) hd.1
      · intro h
        exact Or.inl (Prod.ext rfl h.symm)
    · have hne : (k, v) ≠ p := fun e => hp (congrArg Prod.fst e.symm)
      rw [show listAssoc (p :: ps) k = listAssoc ps k from by simp [listAssoc, hp]]
      rw [← ih hd.2]
      simp only [List.mem_cons]
      constructor
      · rintro (h | h)
        · exact absurd h hne
        · exact h
      · exact Or.inr

theorem insertSorted_perm {α : Type} (le : α → α → Bool) (a : α) (l : List α) :
    (insertSorted le a l).Perm (a :: l) := by
  induction l with
  | nil => exact List.Perm.refl _
  | cons b bs ih =>
    simp only [insertSorted]
    by_cases h : le a b = true
    · rw [if_pos h]
    · rw [if_neg h]
      exact (ih.cons b).trans (List.Perm.swap a b bs)

theorem insertionSort_perm {α : Type} (le : α → α → Bool) (l : List α) :
    (insertionSort le l).Perm l := by
  induction l with
  | nil => exact List.Perm.refl _
  | cons a l ih =>
    simp only [insertionSort]
    exact (insertSorted_perm le a (insertionSort le l)).trans (ih.cons a)

theorem insertSorted_pairwise {α : Type} {le : α → α → Bool}
    (htot : ∀ a b, le a b = true ∨ le b a = true)
    (htrans : ∀ a b c, le a b = true → le b c = true → le a c = true)
    (a : α) {l : List α} (hl : l.Pairwise (fun x y => le x y = true)) :
    (insertSorted le a l).Pairwise (fun x y => le x y = true) := by
  induction l with
  | nil => simp [insertSorted]
  | cons b bs ih =>
    rcases List.pairwise_cons.mp hl with ⟨hb, hbs⟩
    simp only [insertSorted]
    by_cases h : le a b = true
    · rw [if_pos h]
      refine List.Pairwise.cons ?_ hl
      intro x hx
      rcases List.mem_cons.mp hx with hx | hx
      · exact hx ▸ h
      · exact htrans a b x h (hb x hx)
    · rw [if_neg h]
      have hba : le b a = true := (htot a b).resolve_left h
      refine List.Pairwise.cons ?_ (ih hbs)
      intro x hx
      have hx2 : x ∈ a :: bs := (insertSorted_perm le a bs).mem_iff.mp hx
      rcases List.mem_cons.mp hx2 with hx2 | hx2
      · exact hx2 ▸ hba
      · exact hb x hx2

theorem insertionSort_pairwise {α : Type} {le : α → α → Bool}
    (htot : ∀ a b, le a b = true ∨ le b a = true)
    (htrans : ∀ a b c, le a b = true → le b c = true → le a c = true)
    (l : List α) :
    (insertionSort le l).Pairwise (fun x y => le x y = true) := by
  induction l with
  | nil => simp [insertionSort]
  | cons a l ih => exact insertSorted_pairwise htot htrans a ih

theorem lexLt_trichotomy (a b : List Char) :
    lexLt a b = true ∨ a = b ∨ lexLt b a = true := by
  induction a generalizing b with
  | nil => cases b <;> simp [lexLt]
  | cons x xs ih =>
    cases b with
    | nil => simp [lexLt]
    | cons y ys =>
      rcases lt_trichotomy x y with h | h | h
      · left
        simp [lexLt, h]
      · subst h
        rcases ih ys with h2 | h2 | h2
        · left
          simp [lexLt, h2]
        · right; left; rw [h2]
        · right; right
          simp [lexLt, h2]
      · right; right
        simp [lexLt, h]

theorem lexLt_trans {a b c : List Char} (h1 : lexLt a b = true) (h2 : lexLt b c = true) :
    lexLt a c = true := by
  induction a generalizing b c with
  | nil =>
    cases c with
    | nil => cases b <;> simp_all [lexLt]
    | cons z zs => simp [lexLt]
  | cons x xs ih =>
    cases b with
    | nil => simp [lexLt] at h1
    | cons y ys =>
      cases c with
      | nil => simp [lexLt] at h2
      | cons z zs =>
        simp only [lexLt, Bool.or_eq_true, Bool.and_eq_true, decide_eq_true_eq,
          beq_iff_eq] at h1 h2 ⊢
        rcases h1 with h1 | ⟨rfl, h1⟩
        · rcases h2 with h2 | ⟨rfl, h2⟩
          · exact Or.inl (lt_trans h1 h2)
          · exact Or.inl h1
        · rcases h2 with h2 | ⟨rfl, h2⟩
          · exact Or.inl h2
          · exact Or.inr ⟨rfl, ih h1 h2⟩

theorem pairLt_trans {a b c : List Char × List Char} (h1 : pairLt a b = true)
    (h2 : pairLt b c = true) : pairLt a c = true := by
  simp only [pairLt, Bool.or_eq_true, Bool.and_eq_true, beq_iff_eq] at h1 h2 ⊢
  rcases h1 with h1 | ⟨e1, h1⟩
  · rcases h2 with h2 | ⟨e2, h2⟩
    · exact Or.inl (lexLt_trans h1 h2)
    · exact Or.inl (e2 ▸ h1)
  · rcases h2 with h2 | ⟨e2, h2⟩
    · exact Or.inl (e1 ▸ h2)
    · exact Or.inr ⟨e1.trans e2, lexLt_trans h1 h2⟩

theorem pairLt_or_eq_or_gt (a b : List Char × List Char) :
    pairLt a b = true ∨ a = b ∨ pairLt b a = true := by
  simp only [pairLt, Bool.or_eq_true, Bool.and_eq_true, beq_iff_eq]
  rcases lexLt_trichotomy a.1 b.1 with h | h | h
  · exact Or.inl (Or.inl h)
  · rcases lexLt_trichotomy a.2 b.2 with h2 | h2 | h2
    · exact Or.inl (Or.inr ⟨h, h2⟩)
    · exact Or.inr (Or.inl (Prod.ext h h2))
    · exact Or.inr (Or.inr (Or.inr ⟨h.symm, h2⟩))
  · exact Or.inr (Or.inr (Or.inl h))

theorem pairLe_total (a b : List Char × List Char) :
    pairLe a b = true ∨ pairLe b a = true := by
  rcases pairLt_or_eq_or_gt a b with h | rfl | h
  · exact Or.inl (by simp [pairLe, h])
  · exact Or.inl (by simp [pairLe])
  · exact Or.inr (by simp [pairLe, h])

theorem pairLe_trans (a b c : List Char × List Char) (h1 : pairLe a b = true)
    (h2 : pairLe b c = true) : pairLe a c = true := by
  simp only [pairLe, Bool.or_eq_true, decide_eq_true_eq] at h1 h2 ⊢
  rcases h1 with h1 | rfl
  · rcases h2 with h2 | rfl
    · exact Or.inl (pairLt_trans h1 h2)
    · exact Or.inl h1
  · exact h2

theorem key_lt_of_pairLe_ne {x y : List Char × List Char} (h : pairLe x y = true)
    (hne : x.1 ≠ y.1) : lexLt x.1 y.1 = true := by
  simp only [pairLe, pairLt, Bool.or_eq_true, Bool.and_eq_true, beq_iff_eq,
    decide_eq_true_eq] at h
  rcases h with (h | ⟨e, _⟩) | rfl
  · exact h
  · exact absurd e hne
  · exact absurd rfl hne

/-! ## Claim C10: canonical query parameters are key-sorted, deduplicated,
last occurrence wins -/

/-- Claim C10: for every raw query string, the sorted parameter list that
the canonical query string is encoded from has strictly increasing
(lexicographically sorted) keys with no duplicate key, and a pair `(k, v)`
appears in it exactly when `v` is the value of the LAST occurrence of `k`
among the parsed raw entries — earlier occurrences are discarded. -/
theorem canonical_params_sorted_last_wins (head : String) :
    ((keysOf (pySortPairs (pyDict (pyParseParams head)))).Pairwise
        (fun a b => lexLt a b = true)) ∧
      (keysOf (pySortPairs (pyDict (pyParseParams head)))).Nodup ∧
      (∀ k v, (k, v) ∈ pySortPairs (pyDict (pyParseParams head)) ↔
        lastAssoc k (pyParseParams head) = some v) := by
  have hperm : (pySortPairs (pyDict (pyParseParams head))).Perm (pyDict (pyParseParams head)) :=
    insertionSort_perm pairLe (pyDict (pyParseParams head))
  have hnd : (keysOf (pyDict (pyParseParams head))).Nodup := pyDict_keys_nodup _
  have hkeysPerm : (keysOf (pySortPairs (pyDict (pyParseParams head)))).Perm
      (keysOf (pyDict (pyParseParams head))) := hperm.map Prod.fst
  have hndSorted : (keysOf (pySortPairs (pyDict (pyParseParams head)))).Nodup :=
    hkeysPerm.symm.nodup hnd
  refine ⟨?_, hndSorted, ?_⟩
  · have hpw : (pySortPairs (pyDict (pyParseParams head))).Pairwise
        (fun x y => pairLe x y = true) :=
      insertionSort_pairwise pairLe_total pairLe_trans _
    have hne2 : (pySortPairs (pyDict (pyParseParams head))).Pairwise
        (fun x y => x.1 ≠ y.1) := by
      have h : List.Pairwise (· ≠ ·)
          (List.map Prod.fst (pySortPairs (pyDict (pyParseParams head)))) := hndSorted
      exact List.pairwise_map.mp h
    rw [keysOf, List.pairwise_map]
    exact (hpw.and hne2).imp (fun h => key_lt_of_pairLe_ne h.1 h.2)
  · intro k v
    rw [hperm.mem_iff, mem_iff_listAssoc hnd, pyDict_listAssoc]

/-! ## Cleanliness of the strings the builders interpolate -/

theorem cleanChars_not_mem {l : List Char} (h : cleanChars l) : '&' ∉ l ∧ '=' ∉ l :=
  ⟨fun hm => (h '&' hm).1 rfl, fun hm => (h '=' hm).2 rfl⟩

theorem digitChar_clean (m : Nat) : Nat.digitChar m ≠ '&' ∧ Nat.digitChar m ≠ '=' := by
  by_cases h : m < 16
  · interval_cases m <;> exact ⟨by decide, by decide⟩
  · have hne : ∀ k : Nat, k < 16 → ¬ m = k := fun k hk e => h (by omega)
    have h' : Nat.digitChar m = '*' := by
      unfold Nat.digitChar
      rw [if_neg (hne 0 (by omega)), if_neg (hne 1 (by omega)), if_neg (hne 2 (by omega)),
        if_neg (hne 3 (by omega)), if_neg (hne 4 (by omega)), if_neg (hne 5 (by omega)),
        if_neg (hne 6 (by omega)), if_neg (hne 7 (by omega)), if_neg (hne 8 (by omega)),
        if_neg (hne 9 (by omega)), if_neg (hne 10 (by omega)), if_neg (hne 11 (by omega)),
        if_neg (hne 12 (by omega)), if_neg (hne 13 (by omega)), if_neg (hne 14 (by omega)),
        if_neg (hne 15 (by omega))]
    rw [h']
    exact ⟨by decide, by decide⟩

theorem toDigitsCore_clean (fuel : Nat) :
    ∀ (n : Nat) (acc : List Char), (∀ c ∈ acc, c ≠ '&' ∧ c ≠ '=') →
      ∀ c ∈ Nat.toDigitsCore 10 fuel n acc, c ≠ '&' ∧ c ≠ '=' := by
  induction fuel with
  | zero =>
    intro n acc hacc
    simpa [Nat.toDigitsCore] using hacc
  | succ f ih =>
    intro n acc hacc c hc
    simp only [Nat.toDigitsCore] at hc
    by_cases h : n / 10 = 0
    · rw [if_pos h] at hc
      rcases List.mem_cons.mp hc with rfl | hc
      · exact digitChar_clean _
      · exact hacc c hc
    · rw [if_neg h] at hc
      refine ih (n / 10) (Nat.digitChar (n % 10) :: acc) ?_ c hc
      intro x hx
      rcases List.mem_cons.mp hx with rfl | hx
      · exact digitChar_clean _
      · exact hacc x hx

theorem natRepr_clean (n : Nat) : cleanChars (Nat.repr n).data := by
  intro c hc
  exact toDigitsCore_clean (n + 1) n [] (by simp) c hc

theorem intStr_clean (i : Int) : cleanChars (toString i).data := by
  cases i with
  | ofNat m => exact natRepr_clean m
  | negSucc m =>
    intro c hc
    rw [show toString (Int.negSucc m) = "-" ++ Nat.repr (m + 1) from rfl,
      String.data_append] at hc
    rcases List.mem_append.mp hc with hc | hc
    · rcases List.mem_singleton.mp hc with rfl
      decide
    · exact natRepr_clean (m + 1) c hc

theorem pyStrBool_clean (b : Bool) : cleanChars (pyStrBool b).data := by
  cases b <;> (unfold cleanChars; decide)

theorem pyStrOptBool_clean (b : Option Bool) : cleanChars (pyStrOptBool b).data := by
  rcases b with _ | b
  · unfold cleanChars; decide
  · cases b <;> (unfold cleanChars; decide)

/-! ## Computing the query string of a built URL -/

theorem urlQuery_eq {url : String} {pre q : List Char}
    (hurl : url.data = pre ++ '?' :: q) (hpre : '?' ∉ pre) :
    urlQuery url = q := by
  unfold urlQuery
  rw [hurl, dropWhile_append_bad (by decide),
    dropWhile_all (fun c hc => bne_iff_ne.mpr fun e => hpre (by rwa [e] at hc)),
    List.nil_append, List.tail_cons]

theorem urlQueryKeys_no_query {url : String} (h : '?' ∉ url.data) :
    urlQueryKeys url = [[]] := by
  unfold urlQueryKeys urlEntries urlQuery
  rw [dropWhile_all (fun c hc => bne_iff_ne.mpr fun e => h (by rwa [e] at hc))]
  rfl

theorem takeWhile_key (k v : List Char) (hk : '=' ∉ k) :
    (k ++ '=' :: v).takeWhile (· != '=') = k := by
  rw [takeWhile_append_bad (by decide)]
  exact takeWhile_all (fun c hc => bne_iff_ne.mpr fun e => hk (by rwa [e] at hc))

theorem entry_value (k v : List Char) (hk : '=' ∉ k) :
    ((k ++ '=' :: v).dropWhile (· != '=')).tail = v := by
  rw [dropWhile_append_bad (by decide),
    dropWhile_all (fun c hc => bne_iff_ne.mpr fun e => hk (by rwa [e] at hc)),
    List.nil_append, List.tail_cons]

theorem splitOnChar_joinEntries (ps : List (List Char × List Char)) (hps : ps ≠ [])
    (hclean : ∀ p ∈ ps, '&' ∉ p.1 ∧ '&' ∉ p.2) :
    splitOnChar '&' (joinEntries ps) = ps.map (fun p => p.1 ++ '=' :: p.2) := by
  induction ps with
  | nil => exact absurd rfl hps
  | cons p rest ih =>
    have hp := hclean p (List.mem_cons_self p rest)
    have hpent : '&' ∉ p.1 ++ '=' :: p.2 := by
      intro h
      rcases List.mem_append.mp h with h | h
      · exact hp.1 h
      · rcases List.mem_cons.mp h with h | h
        · exact absurd h (by decide)
        · exact hp.2 h
    cases rest with
    | nil =>
      rw [show joinEntries [p] = p.1 ++ '=' :: p.2 from by
        rcases p with ⟨k, v⟩; rfl]
      rw [splitOnChar_not_mem hpent]
      rfl
    | cons p2 rest2 =>
      rw [show joinEntries (p :: p2 :: rest2) =
          (p.1 ++ '=' :: p.2) ++ '&' :: joinEntries (p2 :: rest2) from by
        rcases p with ⟨k, v⟩
        simp [joinEntries, List.append_assoc]]
      rw [splitOnChar_append_sep _ hpent,
        ih (List.cons_ne_nil p2 rest2)
          (fun x hx => hclean x (List.mem_cons_of_mem p hx))]
      rfl

theorem keys_of_entry_list (ps : List (List Char × List Char))
    (hkeys : ∀ p ∈ ps, '=' ∉ p.1) :
    (ps.map (fun p => p.1 ++ '=' :: p.2)).map (fun e => e.takeWhile (· != '=')) =
      ps.map Prod.fst := by
  induction ps with
  | nil => rfl
  | cons p rest ih =>
    simp only [List.map_cons]
    rw [takeWhile_key p.1 p.2 (hkeys p (List.mem_cons_self p rest)),
      ih (fun x hx => hkeys x (List.mem_cons_of_mem p hx))]

theorem urlQueryKeys_of_entries {url : String} {pre : List Char}
    (ps : List (List Char × List Char)) (hps : ps ≠ [])
    (hurl : url.data = pre ++ '?' :: joinEntries ps)
    (hpre : '?' ∉ pre)
    (hclean : ∀ p ∈ ps, '&' ∉ p.1 ∧ '&' ∉ p.2)
    (hkeys : ∀ p ∈ ps, '=' ∉ p.1) :
    urlQueryKeys url = ps.map Prod.fst := by
  unfold urlQueryKeys urlEntries
  rw [urlQuery_eq hurl hpre, splitOnChar_joinEntries ps hps hclean,
    keys_of_entry_list ps hkeys]

theorem findSome_entry_list (ps : List (List Char × List Char))
    (hkeys : ∀ p ∈ ps, '=' ∉ p.1) (k : List Char) :
    ((ps.map (fun p => p.1 ++ '=' :: p.2)).findSome? (fun e =>
      if e.takeWhile (· != '=') = k then some ((e.dropWhile (· != '=')).tail)
      else none)) = listAssoc ps k := by
  induction ps with
  | nil => rfl
  | cons p rest ih =>
    rw [List.map_cons, List.findSome?_cons]
    rw [takeWhile_key p.1 p.2 (hkeys p (List.mem_cons_self p rest)),
      entry_value p.1 p.2 (hkeys p (List.mem_cons_self p rest))]
    by_cases h : p.1 = k
    · simp [h, listAssoc]
    · simp only [if_neg h]
      rw [ih (fun x hx => hkeys x (List.mem_cons_of_mem p hx))]
      simp [listAssoc, h]

theorem urlParamValue_of_entries {url : String} {pre : List Char}
    (ps : List (List Char × List Char)) (hps : ps ≠ [])
    (hurl : url.data = pre ++ '?' :: joinEntries ps)
    (hpre : '?' ∉ pre)
    (hclean : ∀ p ∈ ps, '&' ∉ p.1 ∧ '&' ∉ p.2)
    (hkeys : ∀ p ∈ ps, '=' ∉ p.1) (k : List Char) :
    urlParamValue url k = listAssoc ps k := by
  unfold urlParamValue urlEntries
  rw [urlQuery_eq hurl hpre, splitOnChar_joinEntries ps hps hclean,
    findSome_entry_list ps hkeys k]

/-! ## Query keys of particular builders -/

theorem entry_clean_mk {k v : List Char} (hk : cleanChars k) (hv : cleanChars v) :
    '&' ∉ (k, v).1 ∧ '&' ∉ (k, v).2 :=
  ⟨(cleanChars_not_mem hk).1, (cleanChars_not_mem hv).1⟩

theorem entry_key_mk {k v : List Char} (hk : cleanChars k) : '=' ∉ (k, v).1 :=
  (cleanChars_not_mem hk).2

theorem contest_hacks_keys (cid : Int) (am : Option Bool) :
    urlQueryKeys (contest_hacks cid am) = ["contestId".data, "asManager".data] := by
  have hurl : (contest_hacks cid am).data =
      (baseUrl.data ++ "/contest.hacks".data) ++ '?' ::
        joinEntries [("contestId".data, (toString cid).data),
          ("asManager".data, (pyStrOptBool am).data)] := by
    show (baseUrl ++ "/contest.hacks?contestId=" ++ toString cid ++ "&asManager=" ++
        pyStrOptBool am).data = _
    simp only [String.data_append, joinEntries]
    simp [List.append_assoc]
  rw [urlQueryKeys_of_entries _ (List.cons_ne_nil _ _) hurl (by decide) ?_ ?_]
  · rfl
  · intro p hp
    simp only [List.mem_cons, List.not_mem_nil, or_false] at hp
    rcases hp with rfl | rfl
    · exact entry_clean_mk (by unfold cleanChars; decide) (intStr_clean cid)
    · exact entry_clean_mk (by unfold cleanChars; decide) (pyStrOptBool_clean am)
  · intro p hp
    simp only [List.mem_cons, List.not_mem_nil, or_false] at hp
    rcases hp with rfl | rfl
    · exact entry_key_mk (by unfold cleanChars; decide)
    · exact entry_key_mk (by unfold cleanChars; decide)

theorem contest_status_keys_no_handle (cid : Int) (am : Option Bool) (fi c : Int) :
    urlQueryKeys (contest_status cid am none fi c) =
      ["contestId".data, "asManager".data, "from".data, "count".data] := by
  have hurl : (contest_status cid am none fi c).data =
      (baseUrl.data ++ "/contest.status".data) ++ '?' ::
        joinEntries [("contestId".data, (toString cid).data),
          ("asManager".data, (pyStrOptBool am).data),
          ("from".data, (toString fi).data),
          ("count".data, (toString c).data)] := by
    show (baseUrl ++ "/contest.status?contestId=" ++ toString cid ++ "&asManager=" ++
        pyStrOptBool am ++ "&from=" ++ toString fi ++ "&count=" ++ toString c).data = _
    simp only [String.data_append, joinEntries]
    simp [List.append_assoc]
  rw [urlQueryKeys_of_entries _ (List.cons_ne_nil _ _) hurl (by decide) ?_ ?_]
  · rfl
  · intro p hp
    simp only [List.mem_cons, List.not_mem_nil, or_false] at hp
    rcases hp with rfl | rfl | rfl | rfl
    · exact entry_clean_mk (by unfold cleanChars; decide) (intStr_clean cid)
    · exact entry_clean_mk (by unfold cleanChars; decide) (pyStrOptBool_clean am)
    · exact entry_clean_mk (by unfold cleanChars; decide) (intStr_clean fi)
    · exact entry_clean_mk (by unfold cleanChars; decide) (intStr_clean c)
  · intro p hp
    simp only [List.mem_cons, List.not_mem_nil, or_false] at hp
    rcases hp with rfl | rfl | rfl | rfl
    · exact entry_key_mk (by unfold cleanChars; decide)
    · exact entry_key_mk (by unfold cleanChars; decide)
    · exact entry_key_mk (by unfold cleanChars; decide)
    · exact entry_key_mk (by unfold cleanChars; decide)

theorem problemset_recent_status_keys (cnt : Int) :
    urlQueryKeys (problemset_recent_status cnt none) = ["count".data] := by
  have hurl : (problemset_recent_status cnt none).data =
      (baseUrl.data ++ "/problemset.recentStatus".data) ++ '?' ::
        joinEntries [("count".data, (toString cnt).data)] := by
    show (baseUrl ++ "/problemset.recentStatus?count=" ++ toString cnt).data = _
    simp only [String.data_append, joinEntries]
    simp [List.append_assoc]
  rw [urlQueryKeys_of_entries _ (List.cons_ne_nil _ _) hurl (by decide) ?_ ?_]
  · rfl
  · intro p hp
    simp only [List.mem_cons, List.not_mem_nil, or_false] at hp
    rcases hp with rfl
    exact entry_clean_mk (by unfold cleanChars; decide) (intStr_clean cnt)
  · intro p hp
    simp only [List.mem_cons, List.not_mem_nil, or_false] at hp
    rcases hp with rfl
    exact entry_key_mk (by unfold cleanChars; decide)

theorem user_rated_list_keys (ao ir : Option Bool) :
    urlQueryKeys (user_rated_list ao ir none) =
      ["activeOnly".data, "includeRetired".data] := by
  have hurl : (user_rated_list ao ir none).data =
      (baseUrl.data ++ "/user.ratedList".data) ++ '?' ::
        joinEntries [("activeOnly".data, (pyStrOptBool ao).data),
          ("includeRetired".data, (pyStrOptBool ir).data)] := by
    show (baseUrl ++ "/user.ratedList?activeOnly=" ++ pyStrOptBool ao ++
        "&includeRetired=" ++ pyStrOptBool ir).data = _
    simp only [String.data_append, joinEntries]
    simp [List.append_assoc]
  rw [urlQueryKeys_of_entries _ (List.cons_ne_nil _ _) hurl (by decide) ?_ ?_]
  · rfl
  · intro p hp
    simp only [List.mem_cons, List.not_mem_nil, or_false] at hp
    rcases hp with rfl | rfl
    · exact entry_clean_mk (by unfold cleanChars; decide) (pyStrOptBool_clean ao)
    · exact entry_clean_mk (by unfold cleanChars; decide) (pyStrOptBool_clean ir)
  · intro p hp
    simp only [List.mem_cons, List.not_mem_nil, or_false] at hp
    rcases hp with rfl | rfl
    · exact entry_key_mk (by unfold cleanChars; decide)
    · exact entry_key_mk (by unfold cleanChars; decide)

theorem problemset_problems_keys_tags (s : String) (hs : cleanChars s.data)
    (hne : ¬ s = "") (pn : Option String) :
    urlQueryKeys (problemset_problems (some s) pn) = ["tags".data] := by
  have hred : problemset_problems (some s) pn =
      baseUrl ++ "/problemset.problems?tags=" ++ s := by
    unfold problemset_problems
    rw [if_pos (show pyTruthyOptStr (some s) = true by simp [pyTruthyOptStr, hne])]
    rfl
  have hurl : (problemset_problems (some s) pn).data =
      (baseUrl.data ++ "/problemset.problems".data) ++ '?' ::
        joinEntries [("tags".data, s.data)] := by
    rw [hred]
    simp only [String.data_append, joinEntries]
    simp [List.append_assoc]
  rw [urlQueryKeys_of_entries _ (List.cons_ne_nil _ _) hurl (by decide) ?_ ?_]
  · rfl
  · intro p hp
    simp only [List.mem_cons, List.not_mem_nil, or_false] at hp
    rcases hp with rfl
    exact entry_clean_mk (by unfold cleanChars; decide) hs
  · intro p hp
    simp only [List.mem_cons, List.not_mem_nil, or_false] at hp
    rcases hp with rfl
    exact entry_key_mk (by unfold cleanChars; decide)

theorem problemset_problems_keys_pname (tags : Option String)
    (htf : pyTruthyOptStr tags = false) (s : String) (hs : cleanChars s.data)
    (hne : ¬ s = "") :
    urlQueryKeys (problemset_problems tags (some s)) = ["problemsetName".data] := by
  have hred : problemset_problems tags (some s) =
      baseUrl ++ "/problemset.problems?problemsetName=" ++ s := by
    unfold problemset_problems
    rw [if_neg (by simp [htf]),
      if_pos (show pyTruthyOptStr (some s) = true by simp [pyTruthyOptStr, hne])]
    rfl
  have hurl : (problemset_problems tags (some s)).data =
      (baseUrl.data ++ "/problemset.problems".data) ++ '?' ::
        joinEntries [("problemsetName".data, s.data)] := by
    rw [hred]
    simp only [String.data_append, joinEntries]
    simp [List.append_assoc]
  rw [urlQueryKeys_of_entries _ (List.cons_ne_nil _ _) hurl (by decide) ?_ ?_]
  · rfl
  · intro p hp
    simp only [List.mem_cons, List.not_mem_nil, or_false] at hp
    rcases hp with rfl
    exact entry_clean_mk (by unfold cleanChars; decide) hs
  · intro p hp
    simp only [List.mem_cons, List.not_mem_nil, or_false] at hp
    rcases hp with rfl
    exact entry_key_mk (by unfold cleanChars; decide)

theorem problemset_problems_keys_nofilter (tags pn : Option String)
    (htf : pyTruthyOptStr tags = false) (hpf : pyTruthyOptStr pn = false) :
    urlQueryKeys (problemset_problems tags pn) = [[]] := by
  have hred : problemset_problems tags pn = baseUrl ++ "/problemset.problems" := by
    unfold problemset_problems
    rw [if_neg (by simp [htf]), if_neg (by simp [hpf])]
  rw [hred]
  exact urlQueryKeys_no_query (by decide)

theorem user_info_check_value (handles : String) (hh : cleanChars handles.data)
    (b : Option Bool) :
    urlParamValue (user_info handles b) "checkHistoricHandles".data =
      some (pyStrOptBool b).data := by
  have hurl : (user_info handles b).data =
      (baseUrl.data ++ "/user.info".data) ++ '?' ::
        joinEntries [("handles".data, handles.data),
          ("checkHistoricHandles".data, (pyStrOptBool b).data)] := by
    show (baseUrl ++ "/user.info?handles=" ++ handles ++ "&checkHistoricHandles=" ++
        pyStrOptBool b).data = _
    simp only [String.data_append, joinEntries]
    simp [List.append_assoc]
  rw [urlParamValue_of_entries _ (List.cons_ne_nil _ _) hurl (by decide) ?_ ?_]
  · simp only [listAssoc]
    rw [if_neg (by decide)]
    simp
  · intro p hp
    simp only [List.mem_cons, List.not_mem_nil, or_false] at hp
    rcases hp with rfl | rfl
    · exact entry_clean_mk (by unfold cleanChars; decide) hh
    · exact entry_clean_mk (by unfold cleanChars; decide) (pyStrOptBool_clean b)
  · intro p hp
    simp only [List.mem_cons, List.not_mem_nil, or_false] at hp
    rcases hp with rfl | rfl
    · exact entry_key_mk (by unfold cleanChars; decide)
    · exact entry_key_mk (by unfold cleanChars; decide)

/-! ## Claims C7, C8, C9: optional and boolean parameters in built URLs -/

/-- Claim C7, counterexample: `contest.hacks` with `asManager` left unset
(the Python default `False`), and also with an explicit `None`, still emits
the `asManager` key in the built URL — the unset optional boolean parameter
is not omitted from the query string. -/
theorem unset_optional_param_emitted_counterexample :
    "asManager".data ∈ urlQueryKeys (contest_hacks 456 (some false)) ∧
      "asManager".data ∈ urlQueryKeys (contest_hacks 456 none) := by
  constructor
  · rw [contest_hacks_keys]
    decide
  · rw [contest_hacks_keys]
    decide

/-- Claim C7, amended: only the optional parameters whose Python default is
`None` are omitted when unset — `handle` in `contest.status`, the filters of
`problemset.problems`, `problemsetName` in `problemset.recentStatus`,
`contestId` in `user.ratedList`. Boolean-typed optional parameters are
always emitted: their key is present in the URL of every call, rendering
the default value when the caller leaves them unset. -/
theorem unset_optional_params (cid : Int) (am : Option Bool) (fi c cnt : Int)
    (ao ir : Option Bool) (pn : Option String) (hpn : cleanOptStr pn) :
    "handle".data ∉ urlQueryKeys (contest_status cid am none fi c) ∧
      "problemsetName".data ∉ urlQueryKeys (problemset_recent_status cnt none) ∧
      "contestId".data ∉ urlQueryKeys (user_rated_list ao ir none) ∧
      "tags".data ∉ urlQueryKeys (problemset_problems none pn) ∧
      "asManager".data ∈ urlQueryKeys (contest_hacks cid am) := by
  refine ⟨?_, ?_, ?_, ?_, ?_⟩
  · rw [contest_status_keys_no_handle]
    decide
  · rw [problemset_recent_status_keys]
    decide
  · rw [user_rated_list_keys]
    decide
  · rcases pn with _ | s
    · rw [problemset_problems_keys_nofilter none none rfl rfl]
      decide
    · by_cases hs : s = ""
      · subst hs
        rw [problemset_problems_keys_nofilter none (some "") rfl (by decide)]
        decide
      · rw [problemset_problems_keys_pname none rfl s hpn hs]
        decide
  · rw [contest_hacks_keys]
    decide

/-- Witness for `unset_optional_params` at concrete inputs. -/
theorem unset_optional_params_witness :
    "handle".data ∉ urlQueryKeys (contest_status 566 (some false) none 1 10) ∧
      "problemsetName".data ∉ urlQueryKeys (problemset_recent_status 3 none) ∧
      "contestId".data ∉ urlQueryKeys (user_rated_list (some true) (some false) none) ∧
      "tags".data ∉ urlQueryKeys (problemset_problems none (some "acmsguru")) ∧
      "asManager".data ∈ urlQueryKeys (contest_hacks 566 (some false)) :=
  unset_optional_params 566 (some false) 1 10 3 (some true) (some false)
    (some "acmsguru") (by unfold cleanOptStr cleanChars; decide)

/-- Claim C8, counterexample: with `tags` set to the non-null empty string
and `problemsetName` set, the builder emits `problemsetName` and not `tags`,
because the Python code tests truthiness (`if tags:`) rather than
non-nullness — "first non-null wins" fails at `tags = ""`. -/
theorem filter_precedence_counterexample :
    (some "" : Option String) ≠ none ∧
      "tags".data ∉ urlQueryKeys (problemset_problems (some "") (some "acmsguru")) ∧
      "problemsetName".data ∈
        urlQueryKeys (problemset_problems (some "") (some "acmsguru")) := by
  have hk : urlQueryKeys (problemset_problems (some "") (some "acmsguru")) =
      ["problemsetName".data] :=
    problemset_problems_keys_pname (some "") (by decide) "acmsguru"
      (by unfold cleanChars; decide) (by decide)
  refine ⟨by decide, ?_, ?_⟩
  · rw [hk]
    decide
  · rw [hk]
    decide

/-- Claim C8, amended: the builder never emits both filter keys, and the
precedence is "first TRUTHY wins": a non-empty `tags` emits only the `tags`
key; otherwise a non-empty `problemsetName` emits only the `problemsetName`
key; otherwise neither is emitted. An empty-string filter is treated as
unset, not as a present filter. -/
theorem problemset_problems_filter_precedence (tags pn : Option String)
    (htags : cleanOptStr tags) (hpn : cleanOptStr pn) :
    (¬ ("tags".data ∈ urlQueryKeys (problemset_problems tags pn) ∧
        "problemsetName".data ∈ urlQueryKeys (problemset_problems tags pn))) ∧
      (pyTruthyOptStr tags = true →
        urlQueryKeys (problemset_problems tags pn) = ["tags".data]) ∧
      (pyTruthyOptStr tags = false → pyTruthyOptStr pn = true →
        urlQueryKeys (problemset_problems tags pn) = ["problemsetName".data]) ∧
      (pyTruthyOptStr tags = false → pyTruthyOptStr pn = false →
        urlQueryKeys (problemset_problems tags pn) = [[]]) := by
  have h2 : pyTruthyOptStr tags = true →
      urlQueryKeys (problemset_problems tags pn) = ["tags".data] := by
    intro ht
    rcases tags with _ | s
    · simp [pyTruthyOptStr] at ht
    · have hs : ¬ s = "" := by simpa [pyTruthyOptStr] using ht
      exact problemset_problems_keys_tags s htags hs pn
  have h3 : pyTruthyOptStr tags = false → pyTruthyOptStr pn = true →
      urlQueryKeys (problemset_problems tags pn) = ["problemsetName".data] := by
    intro htf hpt
    rcases pn with _ | s
    · simp [pyTruthyOptStr] at hpt
    · have hs : ¬ s = "" := by simpa [pyTruthyOptStr] using hpt
      exact problemset_problems_keys_pname tags htf s hpn hs
  have h4 : pyTruthyOptStr tags = false → pyTruthyOptStr pn = false →
      urlQueryKeys (problemset_problems tags pn) = [[]] :=
    fun htf hpf => problemset_problems_keys_nofilter tags pn htf hpf
  refine ⟨?_, h2, h3, h4⟩
  rintro ⟨hmem1, hmem2⟩
  by_cases ht : pyTruthyOptStr tags = true
  · rw [h2 ht] at hmem2
    exact absurd hmem2 (by decide)
  · have htf : pyTruthyOptStr tags = false := by
      cases h : pyTruthyOptStr tags
      · rfl
      · exact absurd h ht
    by_cases hp : pyTruthyOptStr pn = true
    · rw [h3 htf hp] at hmem1
      exact absurd hmem1 (by decide)
    · have hpf : pyTruthyOptStr pn = false := by
        cases h : pyTruthyOptStr pn
        · rfl
        · exact absurd h hp
      rw [h4 htf hpf] at hmem1
      exact absurd hmem1 (by decide)

/-- Witness for `problemset_problems_filter_precedence` at concrete inputs:
a truthy `tags` wins over a set `problemsetName`. -/
theorem problemset_problems_filter_precedence_witness :
    urlQueryKeys (problemset_problems (some "dp") (some "acmsguru")) =
      ["tags".data] :=
  (problemset_problems_filter_precedence (some "dp") (some "acmsguru")
      (by unfold cleanOptStr cleanChars; decide)
      (by unfold cleanOptStr cleanChars; decide)).2.1 (by decide)

/-- Claim C9: every boolean parameter value supplied to a builder renders in
the URL as the capitalized literal `"True"`/`"False"` — shown for
`contest.list`'s `gym` and `user.info`'s `checkHistoricHandles` — and never
as `"true"`, `"false"`, `"1"` or `"0"`. -/
theorem boolean_params_render_capitalised (b : Bool) (handles : String)
    (hh : cleanChars handles.data) :
    urlParamValue (contest_list (some b)) "gym".data = some (pyStrBool b).data ∧
      urlParamValue (user_info handles (some b)) "checkHistoricHandles".data =
        some (pyStrBool b).data ∧
      (pyStrBool b = "True" ∨ pyStrBool b = "False") ∧
      pyStrBool b ≠ "true" ∧ pyStrBool b ≠ "false" ∧ pyStrBool b ≠ "1" ∧
      pyStrBool b ≠ "0" := by
  refine ⟨?_, user_info_check_value handles hh (some b), ?_, ?_, ?_, ?_, ?_⟩
  · cases b <;> decide
  · cases b
    · exact Or.inr rfl
    · exact Or.inl rfl
  · cases b <;> decide
  · cases b <;> decide
  · cases b <;> decide
  · cases b <;> decide

/-- Witness for `boolean_params_render_capitalised` at concrete inputs. -/
theorem boolean_params_render_capitalised_witness :
    urlParamValue (user_info "user1;user2" (some true)) "checkHistoricHandles".data =
      some (pyStrBool true).data :=
  (boolean_params_render_capitalised true "user1;user2"
      (by unfold cleanChars; decide)).2.1

end Codeforcespy
